import Mathlib

/-!
Verification development for the species-range ETL pipeline
(`species_range_etl.py`, class `SpeciesPipeline`).

Filenames are modelled as `String`; directory listings as `List String`
(the order of `os.listdir` is the list order, a directory never holds two
entries of the same name).  Stateful helpers become pure state-passing
functions; Python exceptions become `Except` errors.  Character-level
operations (`re.sub`, `split`, slicing) are implemented on `String.data`
so that every definition evaluates by kernel reduction.
-/

deriving instance DecidableEq for Except

namespace SpeciesRangeETL

/-! ### Character-level string primitives -/

/-- Python `s[:-4]`: the string without its last four characters. -/
def pyStem (s : String) : String :=
  ⟨s.data.take (s.data.length - 4)⟩

/-- Python `s[1:]`: the string without its first character. -/
def strTail (s : String) : String :=
  ⟨s.data.drop 1⟩

/-- Inner loop of Python `s.split("_")`: accumulates the current field
(reversed) and cuts at every underscore. -/
def splitUnderscoreGo : List Char → List Char → List (List Char)
  | [], acc => [acc.reverse]
  | c :: rest, acc =>
    if c = '_' then acc.reverse :: splitUnderscoreGo rest []
    else splitUnderscoreGo rest (c :: acc)

/-- Python `s.split("_")` (note `"".split("_") == [""]`). -/
def pySplitUnderscore (s : String) : List String :=
  (splitUnderscoreGo s.data []).map (fun l => ⟨l⟩)

/-- Python `s.endswith(pat)`. -/
def strEndsWith (s pat : String) : Bool :=
  pat.data.isSuffixOf s.data

/-- Python `s.startswith(pat)`. -/
def strStartsWith (s pat : String) : Bool :=
  pat.data.isPrefixOf s.data

/-- Python `re.sub("txt", "asc", s)` specialised to its literal pattern:
every non-overlapping occurrence of `txt` (leftmost first) becomes `asc`. -/
def subTxtAsc : List Char → List Char
  | [] => []
  | [c] => [c]
  | [c, d] => [c, d]
  | c :: d :: e :: rest =>
    if c = 't' ∧ d = 'x' ∧ e = 't' then
      'a' :: 's' :: 'c' :: subTxtAsc rest
    else
      c :: subTxtAsc (d :: e :: rest)

/-- Python `re.sub("asc", "tif", s)` specialised to its literal pattern. -/
def subAscTif : List Char → List Char
  | [] => []
  | [c] => [c]
  | [c, d] => [c, d]
  | c :: d :: e :: rest =>
    if c = 'a' ∧ d = 's' ∧ e = 'c' then
      't' :: 'i' :: 'f' :: subAscTif rest
    else
      c :: subAscTif (d :: e :: rest)

/-- Python `re.sub(".tif", ".shp", s)`: the regex `.` matches any
character except a newline, so the pattern is any-char followed by
`tif`, replaced by `.shp`. -/
def subDotTifShp : List Char → List Char
  | [] => []
  | [c] => [c]
  | [c, d] => [c, d]
  | [c, d, e] => [c, d, e]
  | c :: d :: e :: f :: rest =>
    if c ≠ '\n' ∧ d = 't' ∧ e = 'i' ∧ f = 'f' then
      '.' :: 's' :: 'h' :: 'p' :: subDotTifShp rest
    else
      c :: subDotTifShp (d :: e :: f :: rest)

/-- `re.sub("txt", "asc", file)` on a filename. -/
def pySubTxtAsc (s : String) : String := ⟨subTxtAsc s.data⟩

/-- `re.sub("asc", "tif", file)` on a filename. -/
def pySubAscTif (s : String) : String := ⟨subAscTif s.data⟩

/-- `re.sub(".tif", ".shp", tif_raster)` on a filename. -/
def pySubDotTifShp (s : String) : String := ⟨subDotTifShp s.data⟩

/-- Whether a character list contains an occurrence of `txt`. -/
def hasTxt : List Char → Bool
  | [] => false
  | [_] => false
  | [_, _] => false
  | c :: d :: e :: rest =>
    decide (c = 't' ∧ d = 'x' ∧ e = 't') || hasTxt (d :: e :: rest)

/-! ### Aggregator: per-layer filename parsing (`_load_species_data_helper`) -/

/-- Python exception raised by out-of-range list indexing. -/
inductive PyErr where
  | indexError
deriving DecidableEq

/-- The four metadata attributes attached to a polygon layer. -/
structure LayerMeta where
  threshold : String
  source : String
  scenario : String
  year : String
deriving DecidableEq

/-- Token interpretation of `_load_species_data_helper`:
`details = s_file[:-4].split("_")`, `threshold = details[0]`; when
`details[1] == "current"` the fixed defaults are used, otherwise
`source = details[1]`, `scenario = details[2]`,
`year = details[3][1:]`.  Accessing a missing token raises `IndexError`. -/
def parseLayerDetails (details : List String) : Except PyErr LayerMeta :=
  match details with
  | t :: d1 :: rest =>
    if d1 = "current" then
      .ok ⟨t, "vtech", "current", "2020"⟩
    else
      match rest with
      | d2 :: d3 :: _ => .ok ⟨t, d1, d2, strTail d3⟩
      | _ => .error .indexError
  | _ => .error .indexError

/-- The tokens of a layer filename: `s_file[:-4].split("_")`. -/
def layerTokens (s_file : String) : List String :=
  pySplitUnderscore (pyStem s_file)

/-- Per-layer metadata parse of the Aggregator. -/
def parseLayerFilename (s_file : String) : Except PyErr LayerMeta :=
  parseLayerDetails (layerTokens s_file)

/-! ### Filesystem primitives -/

/-- Python exceptions raised by `os` filesystem calls. -/
inductive OSErr where
  | fileNotFound
  | fileExists
  | dirNotEmpty
deriving DecidableEq

/-- Writing a file into a directory listing: creates the entry or
overwrites the existing one (`open(..., "wb")`, `CreateCopy`,
`zf.extract`, `save` with `arcpy.env.overwriteOutput = True`). -/
def writeFile (dir : List String) (f : String) : List String :=
  if f ∈ dir then dir else dir ++ [f]

/-! ### Grid Converter, sub-step 1 (`_convert_to_ASCII_helper`) -/

/-- One iteration of the rename loop: skip the file when it already ends
in `asc`; otherwise `os.rename` it to `re.sub("txt", "asc", file)`.
`os.rename` raises when the source is missing or (Windows semantics,
the pipeline runs on a drive-letter path) when a distinct target
already exists; renaming a file to its own name leaves the directory
unchanged. -/
def normalizeStep (st : List String) (f : String) : Except OSErr (List String) :=
  if strEndsWith f "asc" then
    .ok st
  else if f ∉ st then .error .fileNotFound
  else if pySubTxtAsc f = f then .ok st
  else if pySubTxtAsc f ∈ st then .error .fileExists
  else .ok (st.erase f ++ [pySubTxtAsc f])

/-- `_convert_to_ASCII_helper`: iterate the rename step over a snapshot
of the directory listing (`os.listdir` is evaluated once). -/
def convertToASCIIHelper (dir : List String) : Except OSErr (List String) :=
  dir.foldlM normalizeStep dir

/-- A filename the rename loop leaves alone: it is skipped (already ends
in `asc`) or renamed to itself. -/
def stableName (f : String) : Prop :=
  strEndsWith f "asc" = true ∨ pySubTxtAsc f = f

/-! ### Grid Converter, sub-step 2 (`_convert_to_tif_helper`) -/

/-- Failure of the grid-to-raster conversion capability
(`gdal.Open` / `Driver.CreateCopy`) on one file. -/
inductive ConvErr where
  | convFail
deriving DecidableEq

/-- Loop of `_convert_to_tif_helper` over the zipped
`(ascii_data, tif_data)` pairs, threading the tif directory listing and
the list of conversions actually performed.  A raised conversion error
aborts the loop (the helper has no `try`/`except`); side effects made
before the failure persist. -/
def convertToTifGo (conv : String → String → Except ConvErr Unit) :
    List (String × String) → List String × List (String × String) →
    (List String × List (String × String)) × Option ConvErr
  | [], st => (st, none)
  | p :: ps, st =>
    match conv p.1 p.2 with
    | .error e => (st, some e)
    | .ok _ => convertToTifGo conv ps (writeFile st.1 p.2, st.2 ++ [p])

/-- `_convert_to_tif_helper`: every listed file of the ascii directory is
paired with `re.sub("asc", "tif", file)` and converted; there is no
check against the tif directory.  Returns the final tif listing, the
conversions performed, and the uncaught error, if any. -/
def convertToTifHelper (conv : String → String → Except ConvErr Unit)
    (asciiDir tifDir : List String) :
    (List String × List (String × String)) × Option ConvErr :=
  convertToTifGo conv (asciiDir.zip (asciiDir.map pySubAscTif)) (tifDir, [])

/-- A conversion capability that always succeeds. -/
def convAlwaysOk : String → String → Except ConvErr Unit := fun _ _ => .ok ()

/-- A conversion capability that fails exactly on the source `b.asc`. -/
def convFailOnB : String → String → Except ConvErr Unit := fun src _ =>
  if src = "b.asc" then .error .convFail else .ok ()

/-! ### Threshold Polygonizer (`_convert_to_shape_helper`) -/

/-- State of one species' raster and polygon directories together with
the raster-to-polygon conversions performed by the current run. -/
structure ShapeState where
  tifDir : List String
  shapesDir : List String
  conversions : List (String × String)
deriving DecidableEq

/-- The fixed cutoff thresholds `[0.25, 0.5, 0.75]` (exact binary
floats, embedded as rationals). -/
def cutOffThresholds : List ℚ := [1/4, 1/2, 3/4]

/-- `int(threshold * 100)` for each cutoff; the products are exact, so
truncation is the floor. -/
def thresholdsPct : List Nat := [25, 50, 75]

/-- `f"{int(threshold * 100)}_{re.sub('.tif', '.shp', tif_raster)}"`. -/
def shapeTargetName (tpct : Nat) (tif : String) : String :=
  toString tpct ++ "_" ++ pySubDotTifShp tif

/-- `f"clean_{int(threshold * 100)}_{tif_raster}"`. -/
def cleanRasterName (tpct : Nat) (tif : String) : String :=
  "clean_" ++ toString tpct ++ "_" ++ tif

/-- Body of the inner threshold loop: skip when the target shapefile
already exists, otherwise save the thresholded raster into the tif
directory and convert it to the polygon file. -/
def processThreshold (tif : String) (st : ShapeState) (tpct : Nat) : ShapeState :=
  let sData := shapeTargetName tpct tif
  if sData ∈ st.shapesDir then st
  else
    { tifDir := writeFile st.tifDir (cleanRasterName tpct tif)
      shapesDir := writeFile st.shapesDir sData
      conversions := st.conversions ++ [(cleanRasterName tpct tif, sData)] }

/-- `_convert_to_shape_helper` on the name level: iterate over a
snapshot of the `.tif` entries of the raster directory and over the
three thresholds. -/
def runShape (tifDir shapesDir : List String) : ShapeState :=
  let inputs := tifDir.filter (fun i => strEndsWith i ".tif")
  inputs.foldl
    (fun st tif => thresholdsPct.foldl (processThreshold tif) st)
    ⟨tifDir, shapesDir, []⟩

/-- `arcpy.sa.Con(raster_in >= threshold, 0)`: a cell of the derived
raster is `0` where the original cell value meets the threshold and
NoData (`none`) elsewhere; NoData inputs stay NoData. -/
def conThreshold {ι : Type} (r : ι → Option ℚ) (t : ℚ) : ι → Option ℚ :=
  fun c =>
    match r c with
    | some v => if t ≤ v then some 0 else none
    | none => none

/-- The cells mapped to the pass value `0` in the derived raster. -/
def passSet {ι : Type} (r : ι → Option ℚ) (t : ℚ) : Set ι :=
  {c | conThreshold r t c = some 0}

/-! ### Archive Fetcher (`_download_species_data_helper`) -/

/-- The filesystem areas touched by the download helper for one species:
the zip staging directory `zipfiles/<species>`, the shared grid root
`ascii/`, and the species-scoped subfolder `ascii/<species>/`. -/
structure FS where
  zipFiles : List String
  asciiRoot : List String
  asciiSpecies : List String
  zipDirPresent : Bool
deriving DecidableEq

/-- One scenario group of the species index page: its heading text,
whether imagery is available (absence of the `Image not available`
marker), and the entries of its archive (`none` models a corrupt
archive raising `BadZipFile`). -/
structure Scenario where
  name : String
  imageAvailable : Bool
  archive : Option (List String)
deriving DecidableEq

/-- Routing of one extracted entry: names starting with the species slug
go to the shared grid root, all others to the species subfolder. -/
def extractEntry (species : String) (fs : FS) (e : String) : FS :=
  if strStartsWith e species then
    { fs with asciiRoot := writeFile fs.asciiRoot e }
  else
    { fs with asciiSpecies := writeFile fs.asciiSpecies e }

/-- One iteration of the scenario loop: skip unavailable imagery;
otherwise persist the archive binary into the staging directory, then
extract its entries (a corrupt archive is caught and only logged). -/
def processScenario (species : String) (fs : FS) (sc : Scenario) : FS :=
  if sc.imageAvailable = false then fs
  else
    let fs1 := { fs with zipFiles := writeFile fs.zipFiles (sc.name ++ ".zip") }
    match sc.archive with
    | none => fs1
    | some entries => entries.foldl (extractEntry species) fs1

/-- All entries the helper extracts over a run. -/
def extractedEntries : List Scenario → List String
  | [] => []
  | sc :: rest =>
    (if sc.imageAvailable then sc.archive.getD [] else []) ++ extractedEntries rest

/-- `_download_species_data_helper`: process every scenario, then
`os.rmdir` the staging directory, which succeeds only when that
directory is empty. -/
def downloadSpeciesDataHelper (species : String) (scens : List Scenario)
    (fs : FS) : Except OSErr FS :=
  let fs1 := scens.foldl (processScenario species) fs
  if fs1.zipFiles = [] then .ok { fs1 with zipDirPresent := false }
  else .error .dirNotEmpty

/-- The species directories as `_generate_species_folders` leaves them. -/
def emptyFS : FS := ⟨[], [], [], true⟩

/-! ### Catalog Resolver (`_get_species_list`) -/

/-- Outcome of `requests.get` on the species-list URL: either the
connection fails, or a response with some HTTP status code and a body
arrives.  The body is given as its rows of tab-separated fields. -/
inductive HTTPResult where
  | unreachable
  | response (status : Nat) (rows : List (List String))
deriving DecidableEq

/-- Failures of catalog resolution. -/
inductive FetchErr where
  | connectionError
  | tableShapeError
deriving DecidableEq

/-- `_get_species_list`: an unreachable host raises out of
`requests.get` (nothing catches it); otherwise the body text is parsed
regardless of the HTTP status code — the code never inspects
`status_code`.  `pd.read_csv` plus the four-name column assignment is
modelled as: succeed iff the body is a nonempty table whose rows all
have exactly 4 fields, returning the first column
(`hyphenated_name`). -/
def getSpeciesList (resp : HTTPResult) : Except FetchErr (List String) :=
  match resp with
  | .unreachable => .error .connectionError
  | .response _ rows =>
    if rows ≠ [] ∧ rows.all (fun row => row.length = 4) then
      .ok (rows.map (fun row => row.headI))
    else .error .tableShapeError

/-! ### Aggregator/Loader (`_load_species_data_helper`, `_load_species_data`) -/

/-- One dissolved row of the final table: the per-layer `dissolve` keyed
by species reduces each layer to a single row carrying the species slug
and the four parsed attributes. -/
structure SpeciesRow where
  species : String
  meta : LayerMeta
deriving DecidableEq

/-- The `for s_file in species_shapes` loop: parse each filename (an
`IndexError` propagates out of the loop) and collect one dissolved row
per layer. -/
def parseShapeRows (species : String) : List String → Except PyErr (List SpeciesRow)
  | [] => .ok []
  | f :: fs => do
    let m ← parseLayerFilename f
    let rest ← parseShapeRows species fs
    pure (⟨species, m⟩ :: rest)

/-- `_load_species_data_helper`: list the `.shp` files of the species'
polygon folder; return `None` when there are none; otherwise parse every
filename and produce one dissolved row per layer. -/
def loadSpeciesDataHelper (species : String) (shapeDir : List String) :
    Except PyErr (Option (List SpeciesRow)) :=
  let shapes := shapeDir.filter (fun i => strEndsWith i ".shp")
  if shapes.length = 0 then .ok none
  else do
    let rows ← parseShapeRows species shapes
    pure (some rows)

/-- Failures of the load stage. -/
inductive LoadErr where
  | emptyConcat
  | fromWorker (e : PyErr)
deriving DecidableEq

/-- The `process_pool.map(self._load_species_data_helper, ...)` call:
run the helper for every species; a worker exception is re-raised. -/
def runLoadHelpers : List (String × List String) →
    Except PyErr (List (Option (List SpeciesRow)))
  | [] => .ok []
  | p :: ps => do
    let r ← loadSpeciesDataHelper p.1 p.2
    let rest ← runLoadHelpers ps
    pure (r :: rest)

/-- `gpd.GeoDataFrame(pd.concat(result), crs=result[0].crs)`: both
`pd.concat` and `result[0]` raise when the filtered result list is
empty; otherwise the per-species tables are concatenated. -/
def concatResults : List (List SpeciesRow) → Except LoadErr (List SpeciesRow)
  | [] => .error .emptyConcat
  | r :: rs => .ok ((r :: rs).foldl (· ++ ·) [])

/-- `_load_species_data`: map the helper over every species, drop the
`None` results, then concatenate — with nothing guarding against an
empty filtered list. -/
def loadSpeciesData (speciesDirs : List (String × List String)) :
    Except LoadErr (List SpeciesRow) :=
  match runLoadHelpers speciesDirs with
  | .error e => .error (.fromWorker e)
  | .ok results => concatResults (results.filterMap id)

/-! ### Lemmas: idempotence of the `txt` to `asc` substitution -/

lemma hasTxt_cons_of_ne (c : Char) (w : List Char) (hc : c ≠ 't') :
    hasTxt (c :: w) = hasTxt w := by
  match w with
  | [] => simp [hasTxt]
  | [d] => simp [hasTxt]
  | d :: e :: w2 => simp [hasTxt, hc]

lemma subTxtAsc_eq_of_not_hasTxt (s : List Char) (h : hasTxt s = false) :
    subTxtAsc s = s := by
  induction s using subTxtAsc.induct with
  | case1 => rfl
  | case2 c => rfl
  | case3 c d => rfl
  | case4 c d e rest hcond ih =>
    exfalso
    simp [hasTxt, hcond] at h
  | case5 c d e rest hcond ih =>
    have h2 : hasTxt (d :: e :: rest) = false := by
      simp only [hasTxt, Bool.or_eq_false_iff] at h ⊢
      exact h.2
    simp only [subTxtAsc, if_neg hcond]
    rw [ih h2]

lemma subTxtAsc_cons (u : List Char) (y : Char) (w : List Char)
    (h : subTxtAsc u = y :: w) :
    y = 'a' ∨ ∃ u2, u = y :: u2 ∧ subTxtAsc u = y :: subTxtAsc u2 := by
  match u with
  | [] => simp [subTxtAsc] at h
  | [c] =>
    simp only [subTxtAsc] at h
    injection h with h1 h2
    subst h1
    exact Or.inr ⟨[], rfl, rfl⟩
  | [c, d] =>
    simp only [subTxtAsc] at h
    injection h with h1 h2
    subst h1
    exact Or.inr ⟨[d], rfl, rfl⟩
  | c :: d :: e :: rest =>
    by_cases hcond : c = 't' ∧ d = 'x' ∧ e = 't'
    · simp only [subTxtAsc, if_pos hcond] at h
      injection h with h1 h2
      exact Or.inl h1.symm
    · simp only [subTxtAsc, if_neg hcond] at h
      injection h with h1 h2
      subst h1
      exact Or.inr ⟨d :: e :: rest, rfl, by simp [subTxtAsc, hcond]⟩

lemma hasTxt_subTxtAsc (s : List Char) : hasTxt (subTxtAsc s) = false := by
  induction s using subTxtAsc.induct with
  | case1 => rfl
  | case2 c => rfl
  | case3 c d => rfl
  | case4 c d e rest hcond ih =>
    simp only [subTxtAsc, if_pos hcond]
    rw [hasTxt_cons_of_ne _ _ (by decide), hasTxt_cons_of_ne _ _ (by decide),
      hasTxt_cons_of_ne _ _ (by decide)]
    exact ih
  | case5 c d e rest hcond ih =>
    simp only [subTxtAsc, if_neg hcond]
    by_cases hc : c = 't'
    · subst hc
      match hw : subTxtAsc (d :: e :: rest) with
      | [] => simp [hasTxt]
      | [y] => simp [hasTxt]
      | y :: z :: w2 =>
        have htail : hasTxt (y :: z :: w2) = false := hw ▸ ih
        have hyz : ¬ (y = 'x' ∧ z = 't') := by
          rintro ⟨rfl, rfl⟩
          rcases subTxtAsc_cons _ _ _ hw with h1 | ⟨u2, hu2, hrec⟩
          · exact absurd h1 (by decide)
          · injection hu2 with hd hu2e
            subst hd
            subst hu2e
            rw [hrec] at hw
            injection hw with _ hw2
            rcases subTxtAsc_cons _ _ _ hw2 with h1 | ⟨u3, hu3, _⟩
            · exact absurd h1 (by decide)
            · injection hu3 with he _
              subst he
              exact hcond ⟨rfl, rfl, rfl⟩
        simp only [hasTxt, htail, Bool.or_false]
        simp [hyz]
    · rw [hasTxt_cons_of_ne _ _ hc]
      exact ih

lemma subTxtAsc_idem (s : List Char) : subTxtAsc (subTxtAsc s) = subTxtAsc s :=
  subTxtAsc_eq_of_not_hasTxt _ (hasTxt_subTxtAsc s)

lemma pySubTxtAsc_idem (s : String) : pySubTxtAsc (pySubTxtAsc s) = pySubTxtAsc s :=
  congrArg String.mk (subTxtAsc_idem s.data)

/-! ### Lemmas: the rename pass and the tif conversion loop -/

lemma normFold_ok (listing : List String) :
    ∀ st st2 : List String, st.Nodup →
    (∀ f ∈ st, f ∈ listing ∨ stableName f) →
    listing.foldlM normalizeStep st = .ok st2 →
    (∀ f ∈ st2, stableName f) ∧ st2.length = st.length ∧ st2.Nodup := by
  induction listing with
  | nil =>
    intro st st2 hnd hinv hrun
    simp only [List.foldlM_nil, pure, Except.pure] at hrun
    obtain rfl : st = st2 := by injection hrun
    refine ⟨fun f hf => ?_, rfl, hnd⟩
    rcases hinv f hf with h | h
    · exact absurd h (by simp)
    · exact h
  | cons g gs ih =>
    intro st st2 hnd hinv hrun
    rw [List.foldlM_cons] at hrun
    cases hstep : normalizeStep st g with
    | error e => rw [hstep] at hrun; simp [Bind.bind, Except.bind] at hrun
    | ok s1 =>
      rw [hstep] at hrun
      simp only [Bind.bind, Except.bind] at hrun
      unfold normalizeStep at hstep
      split at hstep
      · -- ends with asc: skipped
        obtain rfl : st = s1 := by injection hstep
        refine ih st st2 hnd (fun f hf => ?_) hrun
        rcases hinv f hf with h | h
        · rcases List.mem_cons.mp h with rfl | h2
          · exact Or.inr (Or.inl (by assumption))
          · exact Or.inl h2
        · exact Or.inr h
      · split at hstep
        · exact absurd hstep (by simp)
        · split at hstep
          · -- renamed to itself
            obtain rfl : st = s1 := by injection hstep
            refine ih st st2 hnd (fun f hf => ?_) hrun
            rcases hinv f hf with h | h
            · rcases List.mem_cons.mp h with rfl | h2
              · exact Or.inr (Or.inr (by assumption))
              · exact Or.inl h2
            · exact Or.inr h
          · split at hstep
            · exact absurd hstep (by simp)
            · -- real rename
              obtain rfl : st.erase g ++ [pySubTxtAsc g] = s1 := by injection hstep
              rename_i hne hmem hself hclash
              rw [not_not] at hmem
              have hnd1 : (st.erase g ++ [pySubTxtAsc g]).Nodup := by
                refine List.Nodup.append (hnd.erase g) (List.nodup_singleton _)
                  (fun a ha hb => ?_)
                rw [List.mem_singleton] at hb
                subst hb
                exact hclash (List.mem_of_mem_erase ha)
              have hlen : (st.erase g ++ [pySubTxtAsc g]).length = st.length := by
                have hpos := List.length_pos_of_mem hmem
                rw [List.length_append, List.length_erase_of_mem hmem]
                simp only [List.length_singleton]
                omega
              have hinv1 : ∀ f ∈ st.erase g ++ [pySubTxtAsc g], f ∈ gs ∨ stableName f := by
                intro f hf
                rcases List.mem_append.mp hf with hf1 | hf2
                · have hfs : f ∈ st := List.mem_of_mem_erase hf1
                  have hfg : f ≠ g := ((List.Nodup.mem_erase_iff hnd).mp hf1).1
                  rcases hinv f hfs with h | h
                  · rcases List.mem_cons.mp h with rfl | h2
                    · exact absurd rfl hfg
                    · exact Or.inl h2
                  · exact Or.inr h
                · rw [List.mem_singleton] at hf2
                  subst hf2
                  exact Or.inr (Or.inr (pySubTxtAsc_idem g))
              obtain ⟨ha, hb, hc⟩ := ih _ st2 hnd1 hinv1 hrun
              exact ⟨ha, by rw [hb, hlen], hc⟩

lemma normFold_noop (listing : List String) :
    ∀ st : List String, (∀ f ∈ listing, stableName f) →
    (∀ f ∈ listing, f ∈ st) →
    listing.foldlM normalizeStep st = .ok st := by
  induction listing with
  | nil => intro st _ _; rfl
  | cons g gs ih =>
    intro st hstab hmem
    have hstep : normalizeStep st g = .ok st := by
      rcases hstab g (List.mem_cons_self g gs) with h | h
      · simp [normalizeStep, h]
      · by_cases hg : strEndsWith g "asc" = true
        · simp [normalizeStep, hg]
        · simp [normalizeStep, hg, hmem g (List.mem_cons_self g gs), h]
    rw [List.foldlM_cons, hstep]
    simp only [Bind.bind, Except.bind]
    exact ih st (fun f hf => hstab f (List.mem_cons_of_mem g hf))
      (fun f hf => hmem f (List.mem_cons_of_mem g hf))

lemma convertToTifGo_allOk (conv : String → String → Except ConvErr Unit)
    (hconv : ∀ a b, conv a b = .ok ()) :
    ∀ (ps : List (String × String)) (st : List String × List (String × String)),
    (convertToTifGo conv ps st).1.2 = st.2 ++ ps ∧
      (convertToTifGo conv ps st).2 = none := by
  intro ps
  induction ps with
  | nil => intro st; simp [convertToTifGo]
  | cons p ps ih =>
    intro st
    rw [convertToTifGo, hconv p.1 p.2]
    obtain ⟨h1, h2⟩ := ih (writeFile st.1 p.2, st.2 ++ [p])
    exact ⟨by rw [h1]; simp, h2⟩

lemma convertToTifGo_abort (conv : String → String → Except ConvErr Unit)
    (p : String × String) (e : ConvErr) (he : conv p.1 p.2 = .error e) :
    ∀ (pre post : List (String × String))
      (st : List String × List (String × String)),
    (∀ q ∈ pre, conv q.1 q.2 = .ok ()) →
    (convertToTifGo conv (pre ++ p :: post) st).2 = some e ∧
      (convertToTifGo conv (pre ++ p :: post) st).1.2 = st.2 ++ pre := by
  intro pre
  induction pre with
  | nil =>
    intro post st _
    rw [List.nil_append, convertToTifGo, he]
    simp
  | cons q pre ih =>
    intro post st hpre
    rw [List.cons_append, convertToTifGo, hpre q (List.mem_cons_self q pre)]
    obtain ⟨h1, h2⟩ := ih post (writeFile st.1 q.2, st.2 ++ [q])
      (fun r hr => hpre r (List.mem_cons_of_mem q hr))
    exact ⟨h1, by rw [h2]; simp⟩

/-! ### Lemmas: entry routing of the Archive Fetcher -/

lemma mem_writeFile (dir : List String) (f a : String) :
    a ∈ writeFile dir f ↔ a ∈ dir ∨ a = f := by
  unfold writeFile
  split
  · rename_i hmem
    constructor
    · exact Or.inl
    · rintro (h | rfl)
      · exact h
      · exact hmem
  · simp [List.mem_append]

lemma extractFold_fields (species : String) :
    ∀ (entries : List String) (fs : FS),
    (∀ a, a ∈ (entries.foldl (extractEntry species) fs).asciiRoot ↔
      a ∈ fs.asciiRoot ∨ (a ∈ entries ∧ strStartsWith a species = true)) ∧
    (∀ a, a ∈ (entries.foldl (extractEntry species) fs).asciiSpecies ↔
      a ∈ fs.asciiSpecies ∨ (a ∈ entries ∧ strStartsWith a species = false)) ∧
    (entries.foldl (extractEntry species) fs).zipFiles = fs.zipFiles ∧
    (entries.foldl (extractEntry species) fs).zipDirPresent = fs.zipDirPresent := by
  intro entries
  induction entries with
  | nil => intro fs; simp
  | cons e rest ih =>
    intro fs
    rw [List.foldl_cons]
    obtain ⟨ih1, ih2, ih3, ih4⟩ := ih (extractEntry species fs e)
    by_cases hs : strStartsWith e species = true
    · have hfs : extractEntry species fs e =
          { fs with asciiRoot := writeFile fs.asciiRoot e } := by
        simp [extractEntry, hs]
      refine ⟨fun a => ?_, fun a => ?_, ih3.trans (by rw [hfs]),
        ih4.trans (by rw [hfs])⟩
      · rw [ih1 a, hfs]
        simp only [mem_writeFile, List.mem_cons]
        constructor
        · rintro ((h | rfl) | ⟨h1, h2⟩)
          · exact Or.inl h
          · exact Or.inr ⟨Or.inl rfl, hs⟩
          · exact Or.inr ⟨Or.inr h1, h2⟩
        · rintro (h | ⟨(rfl | h1), h2⟩)
          · exact Or.inl (Or.inl h)
          · exact Or.inl (Or.inr rfl)
          · exact Or.inr ⟨h1, h2⟩
      · rw [ih2 a, hfs]
        simp only [List.mem_cons]
        constructor
        · rintro (h | ⟨h1, h2⟩)
          · exact Or.inl h
          · exact Or.inr ⟨Or.inr h1, h2⟩
        · rintro (h | ⟨(rfl | h1), h2⟩)
          · exact Or.inl h
          · rw [hs] at h2; exact absurd h2 (by simp)
          · exact Or.inr ⟨h1, h2⟩
    · rw [Bool.not_eq_true] at hs
      have hfs : extractEntry species fs e =
          { fs with asciiSpecies := writeFile fs.asciiSpecies e } := by
        simp [extractEntry, hs]
      refine ⟨fun a => ?_, fun a => ?_, ih3.trans (by rw [hfs]),
        ih4.trans (by rw [hfs])⟩
      · rw [ih1 a, hfs]
        simp only [List.mem_cons]
        constructor
        · rintro (h | ⟨h1, h2⟩)
          · exact Or.inl h
          · exact Or.inr ⟨Or.inr h1, h2⟩
        · rintro (h | ⟨(rfl | h1), h2⟩)
          · exact Or.inl h
          · rw [hs] at h2; exact absurd h2 (by simp)
          · exact Or.inr ⟨h1, h2⟩
      · rw [ih2 a, hfs]
        simp only [mem_writeFile, List.mem_cons]
        constructor
        · rintro ((h | rfl) | ⟨h1, h2⟩)
          · exact Or.inl h
          · exact Or.inr ⟨Or.inl rfl, hs⟩
          · exact Or.inr ⟨Or.inr h1, h2⟩
        · rintro (h | ⟨(rfl | h1), h2⟩)
          · exact Or.inl (Or.inl h)
          · exact Or.inl (Or.inr rfl)
          · exact Or.inr ⟨h1, h2⟩

/-! ### Lemmas: scenario loop and load stage -/

lemma scenarioFold_ascii (species : String) :
    ∀ (scens : List Scenario) (fs : FS),
    (∀ a, a ∈ (scens.foldl (processScenario species) fs).asciiRoot ↔
      a ∈ fs.asciiRoot ∨
        (a ∈ extractedEntries scens ∧ strStartsWith a species = true)) ∧
    (∀ a, a ∈ (scens.foldl (processScenario species) fs).asciiSpecies ↔
      a ∈ fs.asciiSpecies ∨
        (a ∈ extractedEntries scens ∧ strStartsWith a species = false)) := by
  intro scens
  induction scens with
  | nil => intro fs; simp [extractedEntries]
  | cons sc rest ih =>
    intro fs
    rw [List.foldl_cons]
    obtain ⟨ih1, ih2⟩ := ih (processScenario species fs sc)
    have hent : extractedEntries (sc :: rest) =
        (if sc.imageAvailable then sc.archive.getD [] else []) ++
          extractedEntries rest := rfl
    by_cases hav : sc.imageAvailable = true
    · cases harch : sc.archive with
      | none =>
        have hstep : processScenario species fs sc =
            { fs with zipFiles := writeFile fs.zipFiles (sc.name ++ ".zip") } := by
          simp [processScenario, hav, harch]
        refine ⟨fun a => ?_, fun a => ?_⟩
        · rw [ih1 a, hstep, hent, hav, harch]
          simp
        · rw [ih2 a, hstep, hent, hav, harch]
          simp
      | some entries =>
        have hstep : processScenario species fs sc =
            entries.foldl (extractEntry species)
              { fs with zipFiles := writeFile fs.zipFiles (sc.name ++ ".zip") } := by
          simp [processScenario, hav, harch]
        obtain ⟨he1, he2, _, _⟩ := extractFold_fields species entries
          { fs with zipFiles := writeFile fs.zipFiles (sc.name ++ ".zip") }
        refine ⟨fun a => ?_, fun a => ?_⟩
        · rw [ih1 a, hstep, he1 a, hent, hav, harch]
          simp only [if_true, Option.getD_some, List.mem_append]
          tauto
        · rw [ih2 a, hstep, he2 a, hent, hav, harch]
          simp only [if_true, Option.getD_some, List.mem_append]
          tauto
    · rw [Bool.not_eq_true] at hav
      have hstep : processScenario species fs sc = fs := by
        simp [processScenario, hav]
      refine ⟨fun a => ?_, fun a => ?_⟩
      · rw [ih1 a, hstep, hent, hav]
        simp
      · rw [ih2 a, hstep, hent, hav]
        simp

lemma loadHelper_of_no_shapes (species : String) (dir : List String)
    (h : dir.filter (fun i => strEndsWith i ".shp") = []) :
    loadSpeciesDataHelper species dir = .ok none := by
  simp [loadSpeciesDataHelper, h]

lemma loadHelper_some_shapes (species : String) (dir : List String)
    (rows : List SpeciesRow)
    (h : loadSpeciesDataHelper species dir = .ok (some rows)) :
    dir.filter (fun i => strEndsWith i ".shp") ≠ [] := by
  intro hempty
  rw [loadHelper_of_no_shapes species dir hempty] at h
  simp at h

lemma runLoadHelpers_all_none (dirs : List (String × List String))
    (h : ∀ p ∈ dirs, (p.2.filter (fun i => strEndsWith i ".shp")) = []) :
    runLoadHelpers dirs = .ok (dirs.map (fun _ => none)) := by
  induction dirs with
  | nil => rfl
  | cons p ps ih =>
    rw [runLoadHelpers, loadHelper_of_no_shapes p.1 p.2 (h p (List.mem_cons_self p ps))]
    rw [ih (fun q hq => h q (List.mem_cons_of_mem p hq))]
    rfl

lemma runLoadHelpers_ok_mem (dirs : List (String × List String)) :
    ∀ (results : List (Option (List SpeciesRow))),
    runLoadHelpers dirs = .ok results →
    ∀ r ∈ results, ∃ p ∈ dirs, loadSpeciesDataHelper p.1 p.2 = .ok r := by
  induction dirs with
  | nil =>
    intro results h r hr
    obtain rfl : ([] : List (Option (List SpeciesRow))) = results := by
      unfold runLoadHelpers at h; injection h
    simp at hr
  | cons p ps ih =>
    intro results h r hr
    unfold runLoadHelpers at h
    cases h1 : loadSpeciesDataHelper p.1 p.2 with
    | error e => rw [h1] at h; simp [Bind.bind, Except.bind] at h
    | ok r0 =>
      rw [h1] at h
      simp only [Bind.bind, Except.bind] at h
      cases h2 : runLoadHelpers ps with
      | error e => rw [h2] at h; simp at h
      | ok rest =>
        rw [h2] at h
        simp only [pure, Except.pure] at h
        obtain rfl : r0 :: rest = results := by injection h
        rcases List.mem_cons.mp hr with rfl | hr2
        · exact ⟨p, List.mem_cons_self p ps, h1⟩
        · obtain ⟨q, hq, hqe⟩ := ih rest h2 r hr2
          exact ⟨q, List.mem_cons_of_mem p hq, hqe⟩

/-! ### Claim theorems -/

/-- C1: the claim asserts that the filename `25_vtech_current.shp` parses
to threshold `25`, source `vtech`, scenario `current`, year `2020` without
raising; in fact its token 1 is `vtech`, not `current`, so the full
variant is selected and indexing token 3 raises `IndexError`. -/
theorem C1_counterexample :
    parseLayerFilename "25_vtech_current.shp" = .error .indexError := by
  decide

/-- C1 (amended): the `current` variant of the naming convention is
`25_current.shp`, whose token 1 is `current`; it parses to the fixed
defaults (threshold `25`, source `vtech`, scenario `current`, year
`2020`), while `25_vtech_current.shp` raises an index error because its
token 1 selects the full variant, which needs at least four tokens. -/
theorem C1_amended_parse :
    parseLayerFilename "25_current.shp" =
      .ok ⟨"25", "vtech", "current", "2020"⟩ ∧
    parseLayerFilename "25_vtech_current.shp" = .error .indexError := by
  constructor
  · decide
  · decide

/-- C2: the skip check of the Threshold Polygonizer does skip every
(raster, threshold) pair whose target shapefile exists, but a full rerun
over a completed species is not a no-op: the first run leaves its
`clean_{t}_` intermediate rasters in the tif directory, the rerun picks
them up as inputs (they end in `.tif`) and performs nine new conversions,
creating shapefiles such as `25_clean_25_a.shp` that the first run never
created. -/
theorem C2_rerun_eval :
    (runShape ["a.tif"] []).shapesDir = ["25_a.shp", "50_a.shp", "75_a.shp"] ∧
    (runShape ["a.tif"] []).tifDir =
      ["a.tif", "clean_25_a.tif", "clean_50_a.tif", "clean_75_a.tif"] ∧
    (runShape (runShape ["a.tif"] []).tifDir
        (runShape ["a.tif"] []).shapesDir).conversions.length = 9 ∧
    "25_clean_25_a.shp" ∈ (runShape (runShape ["a.tif"] []).tifDir
        (runShape ["a.tif"] []).shapesDir).shapesDir ∧
    "25_clean_25_a.shp" ∉ (runShape ["a.tif"] []).shapesDir := by
  refine ⟨by decide, by decide, by decide, by decide, by decide⟩

/-- C3: after the scenario loop has persisted one archive, the staging
directory `zipfiles/<species>` still holds that `.zip` file (nothing ever
deletes it), so the final `os.rmdir` raises `OSError` (directory not
empty): the staging storage is not removed and the helper does not
complete without error. -/
theorem C3_rmdir_eval :
    ([⟨"RCP45", true, some ["abies-balsamea_r45.txt", "meta.txt"]⟩].foldl
        (processScenario "abies-balsamea") emptyFS).zipFiles = ["RCP45.zip"] ∧
    downloadSpeciesDataHelper "abies-balsamea"
        [⟨"RCP45", true, some ["abies-balsamea_r45.txt", "meta.txt"]⟩]
        emptyFS = .error .dirNotEmpty := by
  constructor
  · decide
  · decide

/-- C4: the claim asserts both Grid Converter sub-steps skip inputs whose
target output already exists; the raster sub-step has no such check: with
`a.tif` already present in the target directory, the conversion of
`a.asc` is performed anyway. -/
theorem C4_counterexample :
    convertToTifHelper convAlwaysOk ["a.asc"] ["a.tif"] =
      ((["a.tif"], [("a.asc", "a.tif")]), none) := by
  decide

/-- C4 (amended): the normalization sub-step skips files already ending
in `asc` and is idempotent — a successful pass over a duplicate-free
listing yields exactly one file per original and a second pass returns
the directory unchanged; the raster sub-step has no skip check — it
converts every listed file regardless of the target directory's
contents, overwriting existing targets. -/
theorem C4_amended_idempotence :
    (∀ d d1 : List String, d.Nodup → convertToASCIIHelper d = .ok d1 →
      d1.length = d.length ∧ convertToASCIIHelper d1 = .ok d1) ∧
    (∀ asciiDir tifDir : List String,
      (convertToTifHelper convAlwaysOk asciiDir tifDir).1.2 =
        asciiDir.zip (asciiDir.map pySubAscTif)) := by
  constructor
  · intro d d1 hnd hrun
    obtain ⟨hstab, hlen, hnd1⟩ :=
      normFold_ok d d d1 hnd (fun f hf => Or.inl hf) hrun
    exact ⟨hlen, normFold_noop d1 d1 hstab (fun f hf => hf)⟩
  · intro asciiDir tifDir
    obtain ⟨h1, _⟩ := convertToTifGo_allOk convAlwaysOk (fun a b => rfl)
      (asciiDir.zip (asciiDir.map pySubAscTif)) (tifDir, [])
    rw [convertToTifHelper, h1]
    rfl

/-- C4 witness: the normalization idempotence at the concrete listing
`["a.txt"]`, whose successful first pass yields `["a.asc"]`. -/
theorem C4_witness :
    (["a.asc"] : List String).length = (["a.txt"] : List String).length ∧
    convertToASCIIHelper ["a.asc"] = .ok ["a.asc"] :=
  C4_amended_idempotence.1 ["a.txt"] ["a.asc"] (by decide) (by decide)

/-- C5: the claim asserts catalog resolution fails with a fetch error on
a non-success HTTP status; in fact the status code is never inspected: a
404 response whose body happens to be a well-formed 4-column table is
accepted and parsed into a species list. -/
theorem C5_counterexample :
    getSpeciesList (.response 404
        [["abies-balsamea", "balsam fir", "Abies balsamea", "vtech"]]) =
      .ok ["abies-balsamea"] := by
  decide

/-- C5 (amended): catalog resolution is fatal when the remote resource is
unreachable (the connection error propagates uncaught, so no per-species
work starts); a non-success HTTP status is not detected — the response
body is parsed identically whatever the status code, and the run aborts
only if that body is not a nonempty 4-column table. -/
theorem C5_amended_fetch :
    getSpeciesList .unreachable = .error .connectionError ∧
    ∀ (s1 s2 : Nat) (rows : List (List String)),
      getSpeciesList (.response s1 rows) = getSpeciesList (.response s2 rows) := by
  exact ⟨rfl, fun s1 s2 rows => rfl⟩

/-- C6: the claim asserts that a conversion failure on one grid file does
not abort conversion of the species' remaining files; in fact the helper
has no error handling: with a capability failing only on `b.asc`, the
run over `["b.asc", "c.asc"]` stops at `b.asc` and the failure-free
sibling `c.asc` is never converted. -/
theorem C6_counterexample :
    convertToTifHelper convFailOnB ["b.asc", "c.asc"] [] =
      (([], []), some .convFail) ∧
    convFailOnB "c.asc" "c.tif" = .ok () := by
  constructor
  · decide
  · decide

/-- C6 (amended): a conversion failure on one grid file aborts the whole
per-species helper: the conversions performed are exactly those of the
files listed before the failing one, and every later sibling is left
unconverted. -/
theorem C6_amended_abort (conv : String → String → Except ConvErr Unit)
    (pre post : List (String × String)) (p : String × String) (e : ConvErr)
    (st : List String × List (String × String))
    (hpre : ∀ q ∈ pre, conv q.1 q.2 = .ok ())
    (hp : conv p.1 p.2 = .error e) :
    (convertToTifGo conv (pre ++ p :: post) st).2 = some e ∧
      (convertToTifGo conv (pre ++ p :: post) st).1.2 = st.2 ++ pre :=
  convertToTifGo_abort conv p e hp pre post st hpre

/-- C6 witness: the abort behaviour at a concrete three-file listing with
the failure on the middle file. -/
theorem C6_witness :
    (convertToTifGo convFailOnB
        [("a.asc", "a.tif"), ("b.asc", "b.tif"), ("c.asc", "c.tif")]
        ([], [])).2 = some .convFail ∧
    (convertToTifGo convFailOnB
        [("a.asc", "a.tif"), ("b.asc", "b.tif"), ("c.asc", "c.tif")]
        ([], [])).1.2 = [("a.asc", "a.tif")] :=
  C6_amended_abort convFailOnB [("a.asc", "a.tif")] [("c.asc", "c.tif")]
    ("b.asc", "b.tif") .convFail ([], []) (by decide) (by decide)

/-- C7: for every layer filename whose underscore token 1 is not
`current` and which has at least four tokens, the Aggregator parse
returns threshold = token 0, source = token 1, scenario = token 2 and
year = token 3 with its leading character stripped. -/
theorem C7_full_variant (f t0 t1 t2 t3 : String) (rest : List String)
    (htok : layerTokens f = t0 :: t1 :: t2 :: t3 :: rest)
    (hne : t1 ≠ "current") :
    parseLayerFilename f = .ok ⟨t0, t1, t2, strTail t3⟩ := by
  rw [parseLayerFilename, htok]
  simp [parseLayerDetails, hne]

/-- C7 witness: `50_cmip_rcp45_y2070.shp` parses to threshold `50`,
source `cmip`, scenario `rcp45`, year `2070`. -/
theorem C7_witness :
    parseLayerFilename "50_cmip_rcp45_y2070.shp" =
      .ok ⟨"50", "cmip", "rcp45", "2070"⟩ := by
  have h := C7_full_variant "50_cmip_rcp45_y2070.shp" "50" "cmip" "rcp45"
    "y2070" [] (by decide) (by decide)
  rw [h]
  decide

/-- C8: over a full scenario loop of the download helper, an extracted
entry lands in the shared species-root grid area exactly when its name
starts with the species slug, and in the species-scoped subfolder exactly
when it does not (pre-existing directory contents aside). -/
theorem C8_entry_routing (species : String) (scens : List Scenario)
    (fs : FS) (a : String) :
    (a ∈ (scens.foldl (processScenario species) fs).asciiRoot ↔
      a ∈ fs.asciiRoot ∨
        (a ∈ extractedEntries scens ∧ strStartsWith a species = true)) ∧
    (a ∈ (scens.foldl (processScenario species) fs).asciiSpecies ↔
      a ∈ fs.asciiSpecies ∨
        (a ∈ extractedEntries scens ∧ strStartsWith a species = false)) := by
  obtain ⟨h1, h2⟩ := scenarioFold_ascii species scens fs
  exact ⟨h1 a, h2 a⟩

/-- C9: for any raster and thresholds `t1 ≤ t2` from the fixed cutoff
set, every cell mapped to the pass value `0` at `t2` is also mapped to
`0` at `t1`: the lower-threshold region contains the higher-threshold
region. -/
theorem C9_threshold_nesting (ι : Type) (r : ι → Option ℚ) (t1 t2 : ℚ)
    (_h1 : t1 ∈ cutOffThresholds) (_h2 : t2 ∈ cutOffThresholds)
    (hle : t1 ≤ t2) : passSet r t2 ⊆ passSet r t1 := by
  intro c hc
  simp only [passSet, Set.mem_setOf_eq, conThreshold] at hc ⊢
  cases hr : r c with
  | none =>
    rw [hr] at hc
    exact Option.noConfusion hc
  | some v =>
    rw [hr] at hc
    have hc2 : (if t2 ≤ v then (some 0 : Option ℚ) else none) = some 0 := hc
    by_cases hv : t2 ≤ v
    · show (if t1 ≤ v then (some 0 : Option ℚ) else none) = some 0
      rw [if_pos (le_trans hle hv)]
    · rw [if_neg hv] at hc2
      exact absurd hc2 (by simp)

/-- C9 witness: at the constant raster of value 3/5, the cells passing
threshold 1/2 are contained in the cells passing threshold 1/4. -/
theorem C9_witness :
    passSet (fun _ : Unit => some ((3 : ℚ)/5)) (1/2) ⊆
      passSet (fun _ : Unit => some ((3 : ℚ)/5)) (1/4) :=
  C9_threshold_nesting Unit _ (1/4) (1/2)
    (by norm_num [cutOffThresholds]) (by norm_num [cutOffThresholds])
    (by norm_num)

/-- C10: the load stage succeeds only if at least one species has a
nonempty set of polygon layers: when every species' shape folder has no
`.shp` file (every per-species result is `None`), the unguarded
`pd.concat` / `result[0]` on the empty filtered list makes the stage
fail instead of writing an empty table. -/
theorem C10_empty_guard (dirs : List (String × List String)) :
    ((∀ p ∈ dirs, p.2.filter (fun i => strEndsWith i ".shp") = []) →
      loadSpeciesData dirs = .error .emptyConcat) ∧
    (∀ t, loadSpeciesData dirs = .ok t →
      ∃ p ∈ dirs, p.2.filter (fun i => strEndsWith i ".shp") ≠ []) := by
  constructor
  · intro hall
    rw [loadSpeciesData, runLoadHelpers_all_none dirs hall]
    have hfm : (dirs.map (fun _ => (none : Option (List SpeciesRow)))).filterMap id
        = [] := by
      simp
    show concatResults
        ((dirs.map (fun _ => (none : Option (List SpeciesRow)))).filterMap id) =
      .error .emptyConcat
    rw [hfm]
    rfl
  · intro t ht
    rw [loadSpeciesData] at ht
    cases hrun : runLoadHelpers dirs with
    | error e =>
      rw [hrun] at ht
      exact Except.noConfusion ht
    | ok results =>
      rw [hrun] at ht
      have ht2 : concatResults (results.filterMap id) = .ok t := ht
      cases hfm : results.filterMap id with
      | nil =>
        rw [hfm] at ht2
        exact Except.noConfusion ht2
      | cons r rs =>
        have hrmem : some r ∈ results := by
          have hmem2 : r ∈ results.filterMap id := by
            rw [hfm]; exact List.mem_cons_self r rs
          obtain ⟨a, ha, hae⟩ := List.mem_filterMap.mp hmem2
          obtain rfl : a = some r := hae
          exact ha
        obtain ⟨p, hp, hpe⟩ := runLoadHelpers_ok_mem dirs results hrun
          (some r) hrmem
        exact ⟨p, hp, loadHelper_some_shapes p.1 p.2 r hpe⟩

/-- C10 witness: with one species whose shape folder holds no `.shp`
file, the load stage fails with the empty-concatenation error. -/
theorem C10_witness :
    loadSpeciesData [("abies-balsamea", ["readme.txt"])] =
      .error .emptyConcat :=
  (C10_empty_guard [("abies-balsamea", ["readme.txt"])]).1 (by decide)

end SpeciesRangeETL
